import Mathlib

/-!
Verification of the session-discovery and status-classification pipeline of
the claude-mux repository (Go), as a shallow embedding in Lean 4.

Conventions of the embedding:
- Go strings are Lean `String`s; the byte-level Go primitives
  (`strings.Contains`, `strings.HasPrefix`, `strings.HasSuffix`,
  `strings.TrimSpace`) are modelled character-wise over `String.data`.
- Go maps read with zero-value defaults (`pt.Children[pid]`, `pt.Comm[pid]`,
  `pt.Args[pid]`) are modelled as total functions returning the zero value.
- Go slice indexing panics on an out-of-range index; loops that can panic are
  modelled as `Option`-returning functions where `none` is the panic.
- Impure inputs (captured tmux pane lines, file contents, modification
  times) become explicit parameters of the embedded functions.
-/

namespace ClaudeMux

/-- Go `unicode.IsSpace` restricted to the ASCII space characters
(the only ones relevant to the embedded code paths). -/
def goIsSpace (c : Char) : Bool :=
  c == ' ' || c == '\t' || c == '\n' || c == '\x0b' || c == '\x0c' || c == '\r'

/-- Go `strings.TrimSpace`: drop leading and trailing whitespace. -/
def strTrim (s : String) : String :=
  String.mk (((s.data.dropWhile goIsSpace).reverse.dropWhile goIsSpace).reverse)

/-- Go `strings.HasPrefix`. -/
def strHasPrefix (s pre : String) : Bool :=
  pre.data.isPrefixOf s.data

/-- Go `strings.HasSuffix`. -/
def strHasSuffix (s suf : String) : Bool :=
  suf.data.isSuffixOf s.data

/-- Substring occurrence on character lists: `pat` occurs contiguously in `l`. -/
def containsSub (l pat : List Char) : Bool :=
  pat.isPrefixOf l ||
    match l with
    | [] => false
    | _ :: tl => containsSub tl pat

/-- Go `strings.Contains`. -/
def strContains (s sub : String) : Bool :=
  containsSub s.data sub.data

/-- Go `strings.Join(lines, "\n")` as used by `needsAttention`. -/
def joinLines (lines : List String) : String :=
  String.intercalate "\n" lines

/-- The fixed attention-pattern list of `needsAttention`
(src/unnamed/part_001, lines 202-235). -/
def attentionPatterns : List String :=
  [ "Do you want to proceed?",
    "Do you want to allow",
    "Allow once",
    "press Enter to approve",
    "Enter to select",
    "Type something",
    "Esc to cancel",
    "I\x27ll wait for your",
    "waiting for your response",
    "Let me know when",
    "Please let me know",
    "What would you like",
    "How would you like",
    "Should I proceed",
    "Would you like me to",
    "please provide",
    "please specify",
    "I need more information",
    "Could you clarify",
    "awaiting your",
    "ready when you are",
    "let me know if you\x27d like",
    "Feel free to ask",
    "Is there anything else",
    "What else can I help",
    "Want me to go ahead",
    "Shall I",
    "Do you want me to",
    "Ready to proceed" ]

/-- Body of the question-mark loop of `needsAttention`: the trimmed line is
non-blank (blank lines are skipped by the loop), ends with `?`, and does not
start with the prompt glyph. -/
def questionLineTest (l : String) : Bool :=
  let t := strTrim l
  !(t == "") && strHasSuffix t "?" && !(strHasPrefix t "❯")

/-- needsAttention (src/unnamed/part_001, lines 200-251): true if the joined
captured content contains any fixed attention pattern, or if any captured
line (scanned from the last one backwards, skipping blanks) ends with `?`
without starting with `❯`. -/
def needsAttention (lines : List String) : Bool :=
  let content := joinLines lines
  if attentionPatterns.any (fun p => strContains content p) then true
  else lines.reverse.any questionLineTest

/-- ProcessTable (src/unnamed/part_005, lines 9-13): snapshot of the process
tree. Go map reads default to the zero value, so the three maps are embedded
as total functions. -/
structure ProcessTable where
  children : Int → List Int
  comm : Int → String
  args : Int → String

/-- ProcessTable.HasGrandchild (src/unnamed/part_005, lines 16-26). -/
def ProcessTable.hasGrandchild (pt : ProcessTable) (pid : Int) (name : String) : Bool :=
  (pt.children pid).any fun childPID =>
    (pt.children childPID).any fun grandchildPID =>
      let comm := pt.comm grandchildPID
      comm == name || strHasSuffix comm ("/" ++ name)

/-- A registered detector: command name plus busy predicate
(src/unnamed/part_005, lines 29-34). -/
structure Provider where
  command : String
  isBusy : List String → Int → ProcessTable → Bool

/-- Claude detector (src/internal/provider/claude.go). -/
def claudeProvider : Provider :=
  ⟨"claude", fun _ shellPID pt => pt.hasGrandchild shellPID "caffeinate"⟩

/-- Gemini detector (src/unnamed/part_004). -/
def geminiProvider : Provider :=
  ⟨"gemini", fun lines _ _ => lines.reverse.any fun l => strContains l "esc to cancel"⟩

/-- Codex detector (src/unnamed/part_006). -/
def codexProvider : Provider :=
  ⟨"codex", fun lines _ _ => lines.reverse.any fun l => strContains l "esc to interrupt"⟩

/-- OpenCode detector (src/unnamed/part_007). -/
def opencodeProvider : Provider :=
  ⟨"opencode", fun lines _ _ => lines.reverse.any fun l => strContains l "esc interrupt"⟩

/-- The registry after the four `init()` registrations. Lookup is by command
name, which is distinct across providers, so the order is immaterial. -/
def registryList : List Provider :=
  [claudeProvider, geminiProvider, codexProvider, opencodeProvider]

/-- provider.Get (src/unnamed/part_005, lines 44-46). -/
def provGet (cmd : String) : Option Provider :=
  registryList.find? fun p => p.command == cmd

/-- Membership in the registry (`registry[cmd]` hit). -/
def isRegistered (cmd : String) : Bool :=
  (provGet cmd).isSome

/-- PaneStatus (src/unnamed/part_000). -/
inductive PaneStatus where
  | idle
  | busy
  | needsAttention
deriving DecidableEq, Repr

/-- detectStatus (src/unnamed/part_001, lines 173-184), with the captured
pane lines passed explicitly instead of read from tmux. -/
def detectStatus (lines : List String) (shellPID : Int) (cmd : String)
    (pt : ProcessTable) : PaneStatus :=
  if needsAttention lines then .needsAttention
  else match provGet cmd with
    | some p => if p.isBusy lines shellPID pt then .busy else .idle
    | none => .idle

/-- Formalization of the phrase "the last non-blank captured line" used by
claim C1: the trimmed content of the last line whose trimmed content is
non-empty. -/
def lastNonBlankTrimmed (lines : List String) : Option String :=
  lines.reverse.findSome? fun l =>
    let t := strTrim l
    if t == "" then none else some t

/-- Split a character list on a separator character, Go `strings.Split`
style: the result always has one more part than there are separators. -/
def splitChar (sep : Char) (l : List Char) : List (List Char) :=
  match l with
  | [] => [[]]
  | c :: tl =>
    if c == sep then [] :: splitChar sep tl
    else
      match splitChar sep tl with
      | [] => [[c]]
      | w :: ws => (c :: w) :: ws

/-- Go `strings.Split(s, sep)` for a one-character separator. -/
def strSplitOn (s : String) (sep : Char) : List String :=
  (splitChar sep s.data).map String.mk

/-- Go path-prefix stripping (`strings.LastIndex(s, "/")` then the tail):
the part of `s` after its last `/`, or `s` itself when it has none. -/
def stripPath (s : String) : String :=
  (strSplitOn s '/').getLastD s

/-- rawPane (src/unnamed/part_001, lines 15-18). -/
structure RawPane where
  target : String
  session : String
  window : String
  pane : String
  path : String
  cmd : String
  pid : Int
deriving DecidableEq, Repr

/-- Body of the child loop of `Resolve` (src/unnamed/part_005, lines 64-81)
for one child pid: the command basename is tried first, then each
whitespace-separated, path-stripped token of the argument string. -/
def childAgent (pt : ProcessTable) (childPID : Int) : Option String :=
  let base := stripPath (pt.comm childPID)
  if isRegistered base then some base
  else
    (strSplitOn (pt.args childPID) ' ').findSome? fun arg =>
      let a := stripPath arg
      if isRegistered a then some a else none

/-- provider.Resolve (src/unnamed/part_005, lines 57-84). The Go loop with
early returns is the first hit of `childAgent` over the direct children. -/
def Resolve (cmd : String) (shellPID : Int) (pt : ProcessTable) : String :=
  if isRegistered cmd then cmd
  else
    match (pt.children shellPID).findSome? (childAgent pt) with
    | some name => name
    | none => ""

/-- resolveAgentPanes (src/unnamed/part_001, lines 42-53): keep only panes
whose command resolves, rewriting the command to the resolved name. -/
def resolveAgentPanes (raw : List RawPane) (pt : ProcessTable) : List RawPane :=
  raw.filterMap fun r =>
    let c := Resolve r.cmd r.pid pt
    if c == "" then none else some { r with cmd := c }

/-- Candidate agent names offered by the direct children of a pid, in scan
order: for each child, its command basename followed by its path-stripped
argument tokens. Formalizes the search order described by the spec. -/
def childCandidates (pt : ProcessTable) (shellPID : Int) : List String :=
  (pt.children shellPID).flatMap fun c =>
    stripPath (pt.comm c) :: (strSplitOn (pt.args c) ' ').map stripPath

/-- A process table where pid 1 has child 2 running gemini embedded in node. -/
def ptGemini : ProcessTable :=
  ⟨fun p => if p = 1 then [2] else [],
   fun p => if p = 2 then "node" else "",
   fun p => if p = 2 then "node /opt/homebrew/bin/gemini" else ""⟩

/-- A pane whose foreground command resolves to no registered agent. -/
def rawVim : RawPane :=
  ⟨"main:1.1", "main", "1", "1", "/work", "vim", 5⟩

/-- historyEntry (src/internal/agent/history.go, lines 12-15). Timestamps are
epoch milliseconds; `time.UnixMilli` is strictly monotone, so the record
keeps the raw integer and `t.After(existing)` becomes `existing < t`. -/
structure HistoryEntry where
  timestamp : Int
  project : String
deriving DecidableEq, Repr

/-- Read of a Go `map[string]time.Time` modelled as an association list;
`none` is the `ok = false` case of the Go map read. -/
def mapGet (m : List (String × Int)) (k : String) : Option Int :=
  match m with
  | [] => none
  | kv :: tl => if kv.1 == k then some kv.2 else mapGet tl k

/-- Key membership in the association-list map. -/
def mapContains (m : List (String × Int)) (k : String) : Bool :=
  match m with
  | [] => false
  | kv :: tl => kv.1 == k || mapContains tl k

/-- Write of a Go map modelled on the association list: overwrite the
existing binding, else append a new one. -/
def mapSet (m : List (String × Int)) (k : String) (v : Int) : List (String × Int) :=
  if mapContains m k then m.map fun kv => if kv.1 == k then (k, v) else kv
  else m ++ [(k, v)]

/-- Body of the scan loop of `LastActiveByProject` (src/internal/agent/
history.go, lines 54-66) for one line: `none` models a line that
`json.Unmarshal` rejects; empty-project and zero-timestamp records are
skipped; otherwise the map keeps the later timestamp. -/
def historyStep (result : List (String × Int)) (rec : Option HistoryEntry) :
    List (String × Int) :=
  match rec with
  | none => result
  | some e =>
    if e.project == "" || e.timestamp == 0 then result
    else
      match mapGet result e.project with
      | none => mapSet result e.project e.timestamp
      | some existing =>
        if existing < e.timestamp then mapSet result e.project e.timestamp
        else result

/-- The full-file scan of `LastActiveByProject`: fold the per-line step over
the parsed lines, starting from the empty map. -/
def lastActiveScan (records : List (Option HistoryEntry)) : List (String × Int) :=
  records.foldl historyStep []

/-- Timestamps of the well-formed records carrying project `p`, in file
order. Formalizes the claim's "well-formed records with that path". -/
def validStamps (records : List (Option HistoryEntry)) (p : String) : List Int :=
  records.filterMap fun rec =>
    match rec with
    | none => none
    | some e =>
      if e.project == p && !(e.project == "") && !(e.timestamp == 0) then
        some e.timestamp
      else none

/-- Running maximum over an optional accumulator. -/
def maxStep (acc : Option Int) (t : Int) : Option Int :=
  match acc with
  | none => some t
  | some m => some (max m t)

/-- The maximum timestamp over all well-formed records with project `p`,
`none` when there is no such record. -/
def specLastActive (records : List (Option HistoryEntry)) (p : String) : Option Int :=
  (validStamps records p).foldl maxStep none

/-- historyCache (src/internal/agent/history.go, lines 17-21): the mtime key
and the cached mapping; `data = none` is Go's nil map (initial state). -/
structure HistoryCache where
  modTime : Int
  data : Option (List (String × Int))
deriving DecidableEq, Repr

/-- LastActiveByProject (src/internal/agent/history.go, lines 26-71) with
the filesystem explicit: `modTime` is the stat result, `records` the parsed
file lines, `cache` the package-level cache. Returns the mapping, the new
cache, and whether the file body was read (`false` on a cache hit). The
nested match mirrors the Go guard `data != nil && mtime == cached.modTime`. -/
def lastActiveByProject (modTime : Int) (records : List (Option HistoryEntry))
    (cache : HistoryCache) : List (String × Int) × HistoryCache × Bool :=
  match cache.data with
  | some d =>
    if modTime = cache.modTime then (d, cache, false)
    else
      let result := lastActiveScan records
      (result, ⟨modTime, some result⟩, true)
  | none =>
    let result := lastActiveScan records
    (result, ⟨modTime, some result⟩, true)

/-- ItemKind (src/unnamed/part_003, lines 12-17). -/
inductive ItemKind where
  | workspace
  | pane
deriving DecidableEq, Repr

/-- TreeItem (src/unnamed/part_003, lines 20-24). The two indices come from
Go `range` loops, hence naturals; a header's PaneIndex is the zero value. -/
structure TreeItem where
  kind : ItemKind
  workspaceIndex : Nat
  paneIndex : Nat
deriving DecidableEq, Repr

/-- ClaudePane (src/internal/provider/claude.go, claude package): the pane
record consumed by the tui. `lastActive` is epoch milliseconds. -/
structure Pane where
  target : String
  session : String
  window : String
  pane : String
  path : String
  pid : Int
  status : PaneStatus
  lastActive : Int
deriving DecidableEq, Repr

/-- Workspace (claude package). The agent-package variant adds a GitBranch
field that none of the embedded operations read. -/
structure Workspace where
  path : String
  shortPath : String
  panes : List Pane
deriving DecidableEq, Repr

/-- The Go double loop of `FlattenTree` with the running workspace index
made explicit: emit the header for the first workspace, then one pane item
per pane, then the rest at the next index. -/
def flattenFrom (wi : Nat) (ws : List Workspace) : List TreeItem :=
  match ws with
  | [] => []
  | w :: rest =>
    ⟨.workspace, wi, 0⟩ ::
      (((List.range w.panes.length).map fun pi => ⟨.pane, wi, pi⟩) ++
        flattenFrom (wi + 1) rest)

/-- FlattenTree (src/unnamed/part_003, lines 28-37). -/
def FlattenTree (ws : List Workspace) : List TreeItem :=
  flattenFrom 0 ws

/-- Go `items[i]` for an `int` index: `none` models the index-out-of-range
panic on either side. -/
def itemAt (items : List TreeItem) (i : Int) : Option TreeItem :=
  if i < 0 then none else items[i.toNat]?

/-- items[i].Kind == KindPane as a total check (false when out of range,
only evaluated in-range by the embedded loops). -/
def isPaneAt (items : List TreeItem) (i : Int) : Bool :=
  match itemAt items i with
  | some it => it.kind == ItemKind.pane
  | none => false

/-- Loop of `NextPane` (src/unnamed/part_003, lines 40-47): scan `i` upward
while `i < len(items)`; `none` is the Go panic on a negative index. -/
def nextPaneLoop (items : List TreeItem) (fr i : Int) : Option Int :=
  if _h : i < (items.length : Int) then
    if i < 0 then none
    else if isPaneAt items i then some i
    else nextPaneLoop items fr (i + 1)
  else some fr
termination_by ((items.length : Int) - i).toNat
decreasing_by omega

/-- NextPane (src/unnamed/part_003, lines 40-47). -/
def NextPane (items : List TreeItem) (fr : Int) : Option Int :=
  nextPaneLoop items fr (fr + 1)

/-- Loop of `PrevPane` (src/unnamed/part_003, lines 50-57): scan `i`
downward while `i >= 0`; `none` is the Go panic on an index `≥ len`. -/
def prevPaneLoop (items : List TreeItem) (fr i : Int) : Option Int :=
  if _h : 0 ≤ i then
    if (items.length : Int) ≤ i then none
    else if isPaneAt items i then some i
    else prevPaneLoop items fr (i - 1)
  else some fr
termination_by (i + 1).toNat
decreasing_by omega

/-- PrevPane (src/unnamed/part_003, lines 50-57). -/
def PrevPane (items : List TreeItem) (fr : Int) : Option Int :=
  prevPaneLoop items fr (fr - 1)

/-- The clamping prologue of `NearestPane` (lines 66-71), for a non-empty
list: indices past the end move to the last index, negatives to 0. -/
def clampIndex (items : List TreeItem) (fr : Int) : Int :=
  let f1 := if (items.length : Int) ≤ fr then (items.length : Int) - 1 else fr
  if f1 < 0 then 0 else f1

/-- NearestPane (src/unnamed/part_003, lines 62-82). The clamped index is
always in bounds, so the Option results of the two scans are matched; their
`none` (panic) branches are unreachable here. -/
def NearestPane (items : List TreeItem) (fr : Int) : Int :=
  if items.length = 0 then 0
  else
    let c := clampIndex items fr
    if isPaneAt items c then c
    else
      match PrevPane items c with
      | some prev =>
        if prev ≠ c then prev
        else
          match NextPane items c with
          | some next => if next ≠ c then next else 0
          | none => 0
      | none => 0

/-- Go `for i, it := range items` search loop with the running index made
explicit: the index of the first item satisfying `p`, counted from `base`. -/
def firstIdxFrom (p : TreeItem → Bool) (base : Nat) (items : List TreeItem) :
    Option Nat :=
  match items with
  | [] => none
  | it :: rest => if p it then some base else firstIdxFrom p (base + 1) rest

/-- FirstPane (src/unnamed/part_003, lines 85-92). -/
def FirstPane (items : List TreeItem) : Nat :=
  match firstIdxFrom (fun it => it.kind == ItemKind.pane) 0 items with
  | some i => i
  | none => 0

/-- The pane status referenced by a tree item, as an in-bounds read. The Go
source indexes `workspaces[it.WorkspaceIndex].Panes[it.PaneIndex]` directly
and would panic out of range; items built by FlattenTree from the same
workspace list are always in range (claim C10). -/
def statusAt (ws : List Workspace) (it : TreeItem) : Option PaneStatus :=
  match ws[it.workspaceIndex]? with
  | some w =>
    match w.panes[it.paneIndex]? with
    | some p => some p.status
    | none => none
  | none => none

/-- FirstAttentionPane (src/unnamed/part_003, lines 96-103). -/
def FirstAttentionPane (items : List TreeItem) (ws : List Workspace) : Nat :=
  match firstIdxFrom (fun it =>
      it.kind == ItemKind.pane &&
        statusAt ws it == some PaneStatus.needsAttention) 0 items with
  | some i => i
  | none => FirstPane items

/-- r is the first pane index strictly after `fr`. -/
def firstPaneAfter (items : List TreeItem) (fr r : Int) : Prop :=
  isPaneAt items r = true ∧ fr < r ∧
    ∀ j, fr < j → j < r → isPaneAt items j = false

/-- r is the first pane index strictly before `fr` (scanning down). -/
def firstPaneBefore (items : List TreeItem) (fr r : Int) : Prop :=
  isPaneAt items r = true ∧ r < fr ∧
    ∀ j, r < j → j < fr → isPaneAt items j = false

/-- Contract of NextPane from the claim: the smallest pane index greater
than the argument, or the argument itself when no pane follows. -/
def nextPaneSpec (items : List TreeItem) (fr r : Int) : Prop :=
  firstPaneAfter items fr r ∨
    (r = fr ∧ ∀ j, fr < j → isPaneAt items j = false)

/-- Contract of PrevPane from the claim: the largest pane index smaller
than the argument, or the argument itself when no pane precedes. -/
def prevPaneSpec (items : List TreeItem) (fr r : Int) : Prop :=
  firstPaneBefore items fr r ∨
    (r = fr ∧ ∀ j, j < fr → isPaneAt items j = false)

/-- A concrete pane record for witnesses. -/
def demoPane : Pane :=
  ⟨"main:1.1", "main", "1", "1", "/a", 42, PaneStatus.idle, 0⟩

/-- A one-workspace list for witnesses. -/
def wsDemo : List Workspace :=
  [⟨"/a", "a", [demoPane]⟩]

/-- Drop trailing `/` characters (the first loop of Go `filepath.Base`). -/
def dropTrailingSlashes (s : String) : String :=
  String.mk ((s.data.reverse.dropWhile fun c => c == '/').reverse)

/-- Go `filepath.Base` on unix paths: "." for the empty path, "/" when the
path is all slashes, else the last path element. -/
def filepathBase (p : String) : String :=
  if p == "" then "."
  else
    let q := dropTrailingSlashes p
    if q == "" then "/" else stripPath q

/-- The short display name of `GroupByWorkspace` (claude package): the path
basename, or, when that is degenerate, the full path with a leading home
prefix collapsed to `~`. -/
def shortPathOf (home path : String) : String :=
  let short := filepathBase path
  if short == "." || short == "/" then
    if !(home == "") && strHasPrefix path home then
      "~" ++ path.drop home.length
    else path
  else short

/-- First-occurrence deduplication with an explicit seen accumulator. -/
def dedupAux (seen : List String) : List String → List String
  | [] => []
  | x :: tl =>
    if seen.contains x then dedupAux seen tl
    else x :: dedupAux (x :: seen) tl

/-- Insert into an ascending list (for the path sort). -/
def insertSorted (s : String) : List String → List String
  | [] => [s]
  | x :: tl => if s < x then s :: x :: tl else x :: insertSorted s tl

/-- Ascending insertion sort on strings. -/
def sortStrings : List String → List String
  | [] => []
  | x :: tl => insertSorted x (sortStrings tl)

/-- GroupByWorkspace (claude package): one workspace per distinct pane
path, panes kept in discovery order, workspaces sorted ascending by path.
The Go code builds a hash map and then `sort.Slice`s by path; since paths
are distinct map keys, the result is this deterministic list. -/
def GroupByWorkspace (home : String) (panes : List Pane) : List Workspace :=
  (sortStrings (dedupAux [] (panes.map fun p => p.path))).map fun path =>
    { path := path, shortPath := shortPathOf home path,
      panes := panes.filter fun p => p.path == path }

/-- The Bubble Tea commands issued by the embedded Update branch. -/
inductive Cmd where
  | panesTick
  | previewTick
  | loadPanesCmd
  | loadPreview (target : String)
deriving DecidableEq, Repr

/-- The fields of tui.Model touched by the panes-loaded branch
(src/internal/tui/model.go, lines 57-70). -/
structure TuiModel where
  workspaces : List Workspace
  items : List TreeItem
  cursor : Int
  err : Option String
  loaded : Bool
  statusLoaded : Bool
  previewFor : String
deriving DecidableEq, Repr

/-- panesLoadedMsg (src/internal/tui/model.go, lines 14-17). -/
structure PanesLoadedMsg where
  panes : List Pane
  err : Option String
deriving DecidableEq, Repr

/-- The pane target referenced by a tree item (in-bounds read, see
statusAt). -/
def targetAt (ws : List Workspace) (it : TreeItem) : Option String :=
  match ws[it.workspaceIndex]? with
  | some w =>
    match w.panes[it.paneIndex]? with
    | some p => some p.target
    | none => none
  | none => none

/-- Model.previewCmd (src/internal/tui/model.go, lines 276-289): `none`
is Go's nil command. -/
def previewCmd (m : TuiModel) : Option Cmd :=
  if m.cursor < 0 ∨ (m.items.length : Int) ≤ m.cursor then none
  else
    match itemAt m.items m.cursor with
    | some it =>
      if it.kind == ItemKind.pane then
        match targetAt m.workspaces it with
        | some t => if t == m.previewFor then none else some (Cmd.loadPreview t)
        | none => none
      else none
    | none => none

/-- The success path of the `panesLoadedMsg` branch: clear the error,
rebuild workspaces and items from the freshly loaded panes, and place the
cursor (first attention pane on the first successful load, NearestPane
re-anchoring afterwards). -/
def rebuiltModel (home : String) (m : TuiModel) (panes : List Pane) : TuiModel :=
  let firstStatus := !m.statusLoaded
  let ws := GroupByWorkspace home panes
  let items := FlattenTree ws
  let cursor :=
    if firstStatus then ((FirstAttentionPane items ws : Nat) : Int)
    else NearestPane items m.cursor
  { m with
    err := none, statusLoaded := true, workspaces := ws,
    items := items, cursor := cursor }

/-- The `panesLoadedMsg` branch of `Model.Update` (src/internal/tui/model.go,
lines 106-127): always re-arm the panes tick; on error store it; on success
rebuild the model and batch the tick with an optional preview load. -/
def updatePanesLoaded (home : String) (m : TuiModel) (msg : PanesLoadedMsg) :
    TuiModel × List Cmd :=
  let m1 := { m with loaded := true }
  match msg.err with
  | some e => ({ m1 with err := some e }, [Cmd.panesTick])
  | none =>
    let m2 := rebuiltModel home m1 msg.panes
    match previewCmd m2 with
    | some c => (m2, [Cmd.panesTick, c])
    | none => (m2, [Cmd.panesTick])

/-- An initial model for the C9 witness: nothing loaded yet. -/
def mDemo : TuiModel := ⟨[], [], 0, none, false, false, ""⟩

/-- A successful panes-loaded message for the C9 witness. -/
def msgDemo : PanesLoadedMsg := ⟨[demoPane], none⟩

/-- detectStatus classifies a pane as NeedsAttention precisely when the
needsAttention heuristic fires on the captured lines. -/
lemma detectStatus_eq_attention_iff (lines : List String) (shellPID : Int)
    (cmd : String) (pt : ProcessTable) :
    detectStatus lines shellPID cmd pt = .needsAttention ↔
      needsAttention lines = true := by
  unfold detectStatus
  by_cases h : needsAttention lines
  · simp [h]
  · simp only [h, if_false, Bool.not_eq_true]
    cases provGet cmd with
    | none => simp [h]
    | some p =>
      by_cases hb : p.isBusy lines shellPID pt <;> simp [h, hb]

/-- needsAttention reduces to the question-mark scan once no fixed pattern
occurs in the joined content. -/
lemma needsAttention_of_no_pattern (lines : List String)
    (h : ∀ p ∈ attentionPatterns, strContains (joinLines lines) p = false) :
    needsAttention lines = lines.reverse.any questionLineTest := by
  unfold needsAttention
  have hall : attentionPatterns.any (fun p => strContains (joinLines lines) p) = false := by
    rw [List.any_eq_false]
    intro p hp
    simp [h p hp]
  simp [hall]

/-- Claim C1, corrected: with no fixed attention substring present,
classification reports NeedsAttention exactly when SOME captured line
(not only the last non-blank one) trims to a non-blank string that ends
with `?` and does not begin with `❯`. -/
theorem c1_question_mark_rule (lines : List String) (shellPID : Int)
    (cmd : String) (pt : ProcessTable)
    (h : ∀ p ∈ attentionPatterns, strContains (joinLines lines) p = false) :
    detectStatus lines shellPID cmd pt = .needsAttention ↔
      ∃ l ∈ lines, strTrim l ≠ "" ∧ strHasSuffix (strTrim l) "?" = true ∧
        strHasPrefix (strTrim l) "❯" = false := by
  rw [detectStatus_eq_attention_iff, needsAttention_of_no_pattern lines h]
  rw [List.any_eq_true]
  constructor
  · rintro ⟨l, hl, hq⟩
    refine ⟨l, List.mem_reverse.mp hl, ?_⟩
    unfold questionLineTest at hq
    simp only [Bool.and_eq_true, Bool.not_eq_true'] at hq
    refine ⟨?_, hq.1.2, hq.2⟩
    intro hcontra
    rw [hcontra] at hq
    simp at hq
  · rintro ⟨l, hl, hne, hsuf, hpre⟩
    refine ⟨l, List.mem_reverse.mpr hl, ?_⟩
    unfold questionLineTest
    simp only [Bool.and_eq_true, Bool.not_eq_true']
    exact ⟨⟨by simpa using hne, hsuf⟩, hpre⟩

/-- Witness for C1: a single captured line "Refactor now?" (no fixed
pattern present) is classified NeedsAttention by the question-mark rule. -/
theorem c1_witness :
    detectStatus ["Refactor now?"] 0 "vim"
      ⟨fun _ => [], fun _ => "", fun _ => ""⟩ = .needsAttention :=
  (c1_question_mark_rule ["Refactor now?"] 0 "vim"
      ⟨fun _ => [], fun _ => "", fun _ => ""⟩ (by decide)).mpr
    ⟨"Refactor now?", by decide, by decide, by decide, by decide⟩

/-- Counterexample to C1 as stated: in `["Is this fine?", "done"]` no fixed
pattern occurs and the last non-blank captured line is `"done"`, which does
not end with `?` — yet classification reports NeedsAttention, because the
question-mark loop in the source scans ALL captured lines, not only the
last non-blank one. -/
theorem c1_counterexample :
    (∀ p ∈ attentionPatterns,
      strContains (joinLines ["Is this fine?", "done"]) p = false) ∧
    lastNonBlankTrimmed ["Is this fine?", "done"] = some "done" ∧
    strHasSuffix "done" "?" = false ∧
    detectStatus ["Is this fine?", "done"] 0 "claude"
      ⟨fun _ => [], fun _ => "", fun _ => ""⟩ = .needsAttention := by
  refine ⟨by decide, by decide, by decide, by decide⟩

/-- Every PaneStatus is one of the three constructors. -/
lemma paneStatus_cases (s : PaneStatus) :
    s = .idle ∨ s = .busy ∨ s = .needsAttention := by
  cases s <;> simp

/-- Claim C2: detectStatus is total over {Idle, Busy, NeedsAttention}, and
attention wins over busy: whenever the captured lines contain the pattern
"Do you want to proceed?", the result is NeedsAttention for every command
and process table (hence regardless of the detector busy predicate). -/
theorem c2_status_total_and_attention_priority (lines : List String)
    (shellPID : Int) (cmd : String) (pt : ProcessTable) :
    (detectStatus lines shellPID cmd pt = .idle ∨
     detectStatus lines shellPID cmd pt = .busy ∨
     detectStatus lines shellPID cmd pt = .needsAttention) ∧
    (strContains (joinLines lines) "Do you want to proceed?" = true →
      detectStatus lines shellPID cmd pt = .needsAttention) := by
  refine ⟨paneStatus_cases _, fun h => ?_⟩
  rw [detectStatus_eq_attention_iff]
  unfold needsAttention
  have : attentionPatterns.any (fun p => strContains (joinLines lines) p) = true := by
    rw [List.any_eq_true]
    exact ⟨"Do you want to proceed?", by decide, h⟩
  simp [this]

/-- Witness for C2: output ending in "Do you want to proceed? (y/n)" is
classified NeedsAttention even though the claude busy predicate (caffeinate
grandchild present) returns true on the same inputs. -/
theorem c2_witness :
    claudeProvider.isBusy ["Do you want to proceed? (y/n)"] 7
      ⟨fun p => if p = 7 then [8] else if p = 8 then [9] else [],
       fun p => if p = 9 then "caffeinate" else "", fun _ => ""⟩ = true ∧
    detectStatus ["Do you want to proceed? (y/n)"] 7 "claude"
      ⟨fun p => if p = 7 then [8] else if p = 8 then [9] else [],
       fun p => if p = 9 then "caffeinate" else "", fun _ => ""⟩ = .needsAttention :=
  ⟨by decide,
   (c2_status_total_and_attention_priority ["Do you want to proceed? (y/n)"] 7 "claude"
      ⟨fun p => if p = 7 then [8] else if p = 8 then [9] else [],
       fun p => if p = 9 then "caffeinate" else "", fun _ => ""⟩).2 (by decide)⟩

/-- First hit of a guard-shaped search equals head of the filtered list. -/
lemma findSome?_guard_eq_filter_head (p : α → Bool) (l : List α) :
    l.findSome? (fun a => if p a then some a else none) = (l.filter p).head? := by
  induction l with
  | nil => simp
  | cons x xs ih =>
    by_cases h : p x <;> simp [List.findSome?_cons, List.filter_cons, h, ih]

/-- findSome? over a mapped list. -/
lemma findSome?_over_map (g : α → β) (f : β → Option γ) (l : List α) :
    (l.map g).findSome? f = l.findSome? fun a => f (g a) := by
  induction l with
  | nil => simp
  | cons x xs ih => simp [List.findSome?_cons, ih]

/-- childAgent picks the first registered name among the child's candidate
names. -/
lemma childAgent_eq_filter_head (pt : ProcessTable) (c : Int) :
    childAgent pt c =
      ((stripPath (pt.comm c) :: (strSplitOn (pt.args c) ' ').map stripPath).filter
        isRegistered).head? := by
  unfold childAgent
  rw [← findSome?_guard_eq_filter_head]
  rw [List.findSome?_cons]
  by_cases h : isRegistered (stripPath (pt.comm c))
  · simp [h]
  · simp [h, findSome?_over_map]

/-- The child scan of Resolve returns the first registered candidate name. -/
lemma resolve_children_first_match (pt : ProcessTable) (shellPID : Int) :
    (pt.children shellPID).findSome? (childAgent pt) =
      ((childCandidates pt shellPID).filter isRegistered).head? := by
  unfold childCandidates
  induction pt.children shellPID with
  | nil => simp
  | cons c cs ih =>
    rw [List.flatMap_cons, List.filter_append, List.findSome?_cons,
      childAgent_eq_filter_head]
    cases hh : (stripPath (pt.comm c) :: (strSplitOn (pt.args c) ' ').map stripPath).filter
        isRegistered with
    | nil => simp [hh, ih]
    | cons a as => simp [hh]

/-- Claim C3: Resolve returns a registered observed command unchanged;
otherwise it returns the first registered name among the child candidates
(command basename first, then path-stripped argument tokens, children in
order), absent being the empty string; and resolveAgentPanes excludes every
pane whose command does not resolve from the result entirely. -/
theorem c3_resolve_and_exclusion (cmd : String) (shellPID : Int)
    (pt : ProcessTable) (xs ys : List RawPane) (r : RawPane) :
    (isRegistered cmd = true → Resolve cmd shellPID pt = cmd) ∧
    (isRegistered cmd = false →
      Resolve cmd shellPID pt =
        ((childCandidates pt shellPID).filter isRegistered).headD "") ∧
    (Resolve r.cmd r.pid pt = "" →
      resolveAgentPanes (xs ++ r :: ys) pt = resolveAgentPanes (xs ++ ys) pt) := by
  refine ⟨fun h => by simp [Resolve, h], fun h => ?_, fun h => ?_⟩
  · unfold Resolve
    rw [if_neg (by simp [h]), resolve_children_first_match]
    cases hh : ((childCandidates pt shellPID).filter isRegistered).head? with
    | none => simp [List.headD_eq_head?, hh]
    | some a => simp [List.headD_eq_head?, hh]
  · unfold resolveAgentPanes
    rw [List.filterMap_append, List.filterMap_append, List.filterMap_cons]
    simp [h]

/-- Witness for C3: under ptGemini the shell command "zsh" resolves to
"gemini" via the argument-token fallback, and a vim pane is excluded from
resolveAgentPanes entirely. -/
theorem c3_witness :
    Resolve "zsh" 1 ptGemini = "gemini" ∧
    resolveAgentPanes [rawVim] ptGemini = [] := by
  constructor
  · have h := (c3_resolve_and_exclusion "zsh" 1 ptGemini [] [] rawVim).2.1 (by decide)
    rw [h]; decide
  · have h := (c3_resolve_and_exclusion "zsh" 1 ptGemini [] [] rawVim).2.2 (by decide)
    simpa using h

/-- Appending a fresh binding makes its key readable. -/
lemma mapGet_append_self (m : List (String × Int)) (k : String) (v : Int)
    (h : mapContains m k = false) :
    mapGet (m ++ [(k, v)]) k = some v := by
  induction m with
  | nil => simp [mapGet]
  | cons kv tl ih =>
    simp only [mapContains, Bool.or_eq_false_iff] at h
    simpa [mapGet, h.1] using ih h.2

/-- Rewriting the binding of `k` in place makes the map yield the new value,
provided the key occurs. -/
lemma mapGet_update_self (m : List (String × Int)) (k : String) (v : Int)
    (h : mapContains m k = true) :
    mapGet (m.map fun kv => if kv.1 == k then (k, v) else kv) k = some v := by
  induction m with
  | nil => simp [mapContains] at h
  | cons kv tl ih =>
    by_cases hk : (kv.1 == k) = true
    · simp [mapGet, hk]
    · simp only [mapContains, Bool.or_eq_true] at h
      have htl := h.resolve_left hk
      simpa [mapGet, hk] using ih htl

/-- Updating key `k` makes the map yield the new value at `k`. -/
lemma mapGet_mapSet_self (m : List (String × Int)) (k : String) (v : Int) :
    mapGet (mapSet m k v) k = some v := by
  unfold mapSet
  cases hct : mapContains m k with
  | true => simpa using mapGet_update_self m k v hct
  | false => simpa using mapGet_append_self m k v hct

/-- Appending a binding for `k` leaves every other key unchanged. -/
lemma mapGet_append_other (m : List (String × Int)) (k : String) (v : Int)
    (q : String) (hq : q ≠ k) :
    mapGet (m ++ [(k, v)]) q = mapGet m q := by
  have hkq : (k == q) = false := beq_eq_false_iff_ne.mpr fun h => hq h.symm
  induction m with
  | nil => simp [mapGet, hkq]
  | cons kv tl ih =>
    by_cases hkvq : (kv.1 == q) = true
    · simp [mapGet, hkvq]
    · simpa [mapGet, hkvq] using ih

/-- Rewriting the binding of `k` leaves every other key unchanged. -/
lemma mapGet_update_other (m : List (String × Int)) (k : String) (v : Int)
    (q : String) (hq : q ≠ k) :
    mapGet (m.map fun kv => if kv.1 == k then (k, v) else kv) q = mapGet m q := by
  have hkq : (k == q) = false := beq_eq_false_iff_ne.mpr fun h => hq h.symm
  induction m with
  | nil => simp [mapGet]
  | cons kv tl ih =>
    by_cases hk : (kv.1 == k) = true
    · have hk1 : kv.1 = k := by simpa using hk
      have hkvq : (kv.1 == q) = false := by rw [hk1]; exact hkq
      simpa [mapGet, hk, hkq, hkvq] using ih
    · by_cases hkvq : (kv.1 == q) = true
      · simp [mapGet, hk, hkvq]
      · simpa [mapGet, hk, hkvq] using ih

/-- Updating key `k` leaves every other key unchanged. -/
lemma mapGet_mapSet_other (m : List (String × Int)) (k : String) (v : Int)
    (q : String) (hq : q ≠ k) :
    mapGet (mapSet m k v) q = mapGet m q := by
  unfold mapSet
  cases mapContains m k with
  | true => simpa using mapGet_update_other m k v q hq
  | false => simpa using mapGet_append_other m k v q hq

/-- The scan fold agrees key-wise with the running-maximum fold over the
well-formed records of that key. -/
lemma lastActiveScan_invariant (p : String) (records : List (Option HistoryEntry)) :
    ∀ acc : List (String × Int),
      mapGet (records.foldl historyStep acc) p =
        (validStamps records p).foldl maxStep (mapGet acc p) := by
  induction records with
  | nil => intro acc; simp [validStamps]
  | cons rec rs ih =>
    intro acc
    rw [List.foldl_cons]
    rw [ih (historyStep acc rec)]
    cases rec with
    | none => simp [validStamps, historyStep, List.filterMap_cons]
    | some e =>
      by_cases hskip : (e.project == "" || e.timestamp == 0) = true
      · have h1 : historyStep acc (some e) = acc := by simp [historyStep, hskip]
        have h2 : validStamps (some e :: rs) p = validStamps rs p := by
          rcases Bool.or_eq_true_iff.mp hskip with h | h
          · have h' : e.project = "" := by simpa using h
            simp [validStamps, List.filterMap_cons, h']
          · have h' : e.timestamp = 0 := by simpa using h
            simp [validStamps, List.filterMap_cons, h']
        rw [h1, h2]
      · rw [Bool.or_eq_true_iff, not_or] at hskip
        obtain ⟨hne, hnz⟩ := hskip
        have hne' : e.project ≠ "" := by simpa using hne
        have hnz' : e.timestamp ≠ 0 := by simpa using hnz
        have hstep : historyStep acc (some e) =
            match mapGet acc e.project with
            | none => mapSet acc e.project e.timestamp
            | some existing =>
              if existing < e.timestamp then mapSet acc e.project e.timestamp
              else acc := by
          simp [historyStep, hne', hnz']
        by_cases hp : (e.project == p) = true
        · have hpp : e.project = p := by simpa using hp
          have hpne : p ≠ "" := hpp ▸ hne'
          have h2 : validStamps (some e :: rs) p =
              e.timestamp :: validStamps rs p := by
            simp [validStamps, List.filterMap_cons, hpp, hpne, hnz']
          rw [h2, List.foldl_cons]
          have hgoal : mapGet (historyStep acc (some e)) p =
              maxStep (mapGet acc p) e.timestamp := by
            rw [hstep]
            cases hacc : mapGet acc e.project with
            | none =>
              rw [hpp] at hacc
              dsimp only
              rw [hpp, mapGet_mapSet_self, hacc]
              rfl
            | some existing =>
              rw [hpp] at hacc
              dsimp only
              by_cases hlt : existing < e.timestamp
              · rw [if_pos hlt, hpp, mapGet_mapSet_self, hacc]
                simp [maxStep, max_eq_right hlt.le]
              · rw [if_neg hlt, hacc]
                simp [maxStep, max_eq_left (not_lt.mp hlt)]
          rw [hgoal]
        · have hppne : e.project ≠ p := by simpa using hp
          have h2 : validStamps (some e :: rs) p = validStamps rs p := by
            simp [validStamps, List.filterMap_cons, hppne]
          have h1 : mapGet (historyStep acc (some e)) p = mapGet acc p := by
            rw [hstep]
            cases mapGet acc e.project with
            | none =>
              exact mapGet_mapSet_other acc e.project e.timestamp p
                (fun h => hppne h.symm)
            | some existing =>
              dsimp only
              by_cases hlt : existing < e.timestamp
              · rw [if_pos hlt]
                exact mapGet_mapSet_other acc e.project e.timestamp p
                  (fun h => hppne h.symm)
              · rw [if_neg hlt]
          rw [h1, h2]

/-- Claim C4: for every parsed history line list, the mapping produced by the
scan of LastActiveByProject sends each project to the maximum timestamp over
its well-formed records (absent when there is none), and the spec's worked
example {t=100,"/a"}, {t=50,"/a"}, {t=200,"/b"} yields exactly
{"/a": 100, "/b": 200}. -/
theorem c4_last_active_max (records : List (Option HistoryEntry)) (p : String) :
    mapGet (lastActiveScan records) p = specLastActive records p ∧
    lastActiveScan [some ⟨100, "/a"⟩, some ⟨50, "/a"⟩, some ⟨200, "/b"⟩] =
      [("/a", 100), ("/b", 200)] := by
  constructor
  · have h := lastActiveScan_invariant p records []
    simpa [lastActiveScan, specLastActive, mapGet] using h
  · decide

/-- Claim C5: after any call, a second call with the same modification time
returns the first call's mapping and cache unchanged without reading the
file (whatever the file now contains); a call with a different modification
time re-scans and wholly replaces the cached mapping with the fresh scan. -/
theorem c5_history_cache_by_mtime (mt mt2 : Int)
    (records records2 recs2 : List (Option HistoryEntry)) (cache : HistoryCache) :
    (lastActiveByProject mt records2 (lastActiveByProject mt records cache).2.1 =
      ((lastActiveByProject mt records cache).1,
       (lastActiveByProject mt records cache).2.1, false)) ∧
    (mt2 ≠ mt →
      lastActiveByProject mt2 recs2 (lastActiveByProject mt records cache).2.1 =
        (lastActiveScan recs2, ⟨mt2, some (lastActiveScan recs2)⟩, true)) := by
  obtain ⟨cmt, cd⟩ := cache
  refine ⟨?_, fun hmt2 => ?_⟩
  · cases cd with
    | none => simp [lastActiveByProject]
    | some d =>
      by_cases h : mt = cmt
      · simp [lastActiveByProject, h]
      · simp [lastActiveByProject, h]
  · cases cd with
    | none => simp [lastActiveByProject, hmt2]
    | some d =>
      by_cases h : mt = cmt
      · subst h
        simp [lastActiveByProject, hmt2]
      · simp [lastActiveByProject, h, hmt2]

/-- Witness for C5: a cold cache at mtime 0, a first read at mtime 1, then a
changed mtime 2 forces a full re-scan that replaces the cache. -/
theorem c5_witness :
    lastActiveByProject 2 [some ⟨7, "/b"⟩]
        (lastActiveByProject 1 [some ⟨100, "/a"⟩] ⟨0, none⟩).2.1 =
      (lastActiveScan [some ⟨7, "/b"⟩],
       ⟨2, some (lastActiveScan [some ⟨7, "/b"⟩])⟩, true) :=
  (c5_history_cache_by_mtime 1 2 [some ⟨100, "/a"⟩] [] [some ⟨7, "/b"⟩]
      ⟨0, none⟩).2 (by decide)

/-- Indices at or past the length hold no pane. -/
lemma isPaneAt_out_of_range (items : List TreeItem) (j : Int)
    (h : (items.length : Int) ≤ j) : isPaneAt items j = false := by
  unfold isPaneAt itemAt
  rw [if_neg (by omega), List.getElem?_eq_none (by omega)]

/-- Negative indices hold no pane. -/
lemma isPaneAt_neg (items : List TreeItem) (j : Int) (h : j < 0) :
    isPaneAt items j = false := by
  unfold isPaneAt itemAt
  rw [if_pos h]

/-- A pane-holding index is in bounds. -/
lemma isPaneAt_bounds (items : List TreeItem) (i : Int)
    (h : isPaneAt items i = true) : 0 ≤ i ∧ i < (items.length : Int) := by
  by_contra hcon
  rw [not_and_or] at hcon
  cases hcon with
  | inl h0 => rw [isPaneAt_neg items i (by omega)] at h; cases h
  | inr h1 => rw [isPaneAt_out_of_range items i (by omega)] at h; cases h

/-- One exit step of the NextPane loop: the scan index reached the end. -/
lemma nextPaneLoop_exit (items : List TreeItem) (fr i : Int)
    (h : ¬ i < (items.length : Int)) : nextPaneLoop items fr i = some fr := by
  unfold nextPaneLoop
  rw [dif_neg h]

/-- One panic step of the NextPane loop: a negative in-range index. -/
lemma nextPaneLoop_panic (items : List TreeItem) (fr i : Int)
    (h1 : i < (items.length : Int)) (h2 : i < 0) :
    nextPaneLoop items fr i = none := by
  unfold nextPaneLoop
  rw [dif_pos h1, if_pos h2]

/-- One hit step of the NextPane loop: the scan index holds a pane. -/
lemma nextPaneLoop_found (items : List TreeItem) (fr i : Int)
    (h1 : i < (items.length : Int)) (h2 : 0 ≤ i)
    (h3 : isPaneAt items i = true) : nextPaneLoop items fr i = some i := by
  unfold nextPaneLoop
  rw [dif_pos h1, if_neg (by omega), if_pos h3]

/-- One skip step of the NextPane loop: a non-pane row is passed over. -/
lemma nextPaneLoop_skip (items : List TreeItem) (fr i : Int)
    (h1 : i < (items.length : Int)) (h2 : 0 ≤ i)
    (h3 : isPaneAt items i = false) :
    nextPaneLoop items fr i = nextPaneLoop items fr (i + 1) := by
  conv_lhs => unfold nextPaneLoop
  rw [dif_pos h1, if_neg (by omega), h3]
  simp

/-- One exit step of the PrevPane loop: the scan index went below 0. -/
lemma prevPaneLoop_exit (items : List TreeItem) (fr i : Int)
    (h : ¬ 0 ≤ i) : prevPaneLoop items fr i = some fr := by
  unfold prevPaneLoop
  rw [dif_neg h]

/-- One panic step of the PrevPane loop: a non-negative index past the end. -/
lemma prevPaneLoop_panic (items : List TreeItem) (fr i : Int)
    (h1 : 0 ≤ i) (h2 : (items.length : Int) ≤ i) :
    prevPaneLoop items fr i = none := by
  unfold prevPaneLoop
  rw [dif_pos h1, if_pos h2]

/-- One hit step of the PrevPane loop. -/
lemma prevPaneLoop_found (items : List TreeItem) (fr i : Int)
    (h1 : 0 ≤ i) (h2 : i < (items.length : Int))
    (h3 : isPaneAt items i = true) : prevPaneLoop items fr i = some i := by
  unfold prevPaneLoop
  rw [dif_pos h1, if_neg (by omega), if_pos h3]

/-- One skip step of the PrevPane loop. -/
lemma prevPaneLoop_skip (items : List TreeItem) (fr i : Int)
    (h1 : 0 ≤ i) (h2 : i < (items.length : Int))
    (h3 : isPaneAt items i = false) :
    prevPaneLoop items fr i = prevPaneLoop items fr (i - 1) := by
  conv_lhs => unfold prevPaneLoop
  rw [dif_pos h1, if_neg (by omega), h3]
  simp

/-- Characterization of the NextPane loop started at a non-negative index:
it returns the first pane index at or after the start, else the fallback. -/
lemma nextPaneLoop_spec (items : List TreeItem) (fr : Int) :
    ∀ (fuel : Nat) (i : Int), 0 ≤ i → (items.length : Int) ≤ i + fuel →
      ∃ r, nextPaneLoop items fr i = some r ∧
        ((isPaneAt items r = true ∧ i ≤ r ∧
            ∀ j, i ≤ j → j < r → isPaneAt items j = false) ∨
         (r = fr ∧ ∀ j, i ≤ j → isPaneAt items j = false)) := by
  intro fuel
  induction fuel with
  | zero =>
    intro i hi hlen
    refine ⟨fr, nextPaneLoop_exit items fr i (by omega), Or.inr ⟨rfl, ?_⟩⟩
    intro j hj
    exact isPaneAt_out_of_range items j (by omega)
  | succ n ihn =>
    intro i hi hlen
    by_cases hlt : i < (items.length : Int)
    · by_cases hp : isPaneAt items i = true
      · exact ⟨i, nextPaneLoop_found items fr i hlt hi hp,
          Or.inl ⟨hp, le_refl i, fun j h1 h2 => by omega⟩⟩
      · have hp' : isPaneAt items i = false := by simpa using hp
        rw [nextPaneLoop_skip items fr i hlt hi hp']
        obtain ⟨r, hr, hchar⟩ := ihn (i + 1) (by omega) (by omega)
        refine ⟨r, hr, ?_⟩
        cases hchar with
        | inl hfound =>
          refine Or.inl ⟨hfound.1, by omega, fun j hj1 hj2 => ?_⟩
          by_cases hji : j = i
          · subst hji; exact hp'
          · exact hfound.2.2 j (by omega) hj2
        | inr hnone =>
          refine Or.inr ⟨hnone.1, fun j hj => ?_⟩
          by_cases hji : j = i
          · subst hji; exact hp'
          · exact hnone.2 j (by omega)
    · refine ⟨fr, nextPaneLoop_exit items fr i hlt, Or.inr ⟨rfl, ?_⟩⟩
      intro j hj
      exact isPaneAt_out_of_range items j (by omega)

/-- Characterization of the PrevPane loop started at an index below the
length: it returns the first pane index at or before the start, else the
fallback. -/
lemma prevPaneLoop_spec (items : List TreeItem) (fr : Int) :
    ∀ (fuel : Nat) (i : Int), i < (items.length : Int) → i < (fuel : Int) →
      ∃ r, prevPaneLoop items fr i = some r ∧
        ((isPaneAt items r = true ∧ r ≤ i ∧
            ∀ j, r < j → j ≤ i → isPaneAt items j = false) ∨
         (r = fr ∧ ∀ j, j ≤ i → isPaneAt items j = false)) := by
  intro fuel
  induction fuel with
  | zero =>
    intro i hupper hfuel
    refine ⟨fr, prevPaneLoop_exit items fr i (by omega), Or.inr ⟨rfl, ?_⟩⟩
    intro j hj
    exact isPaneAt_neg items j (by omega)
  | succ n ihn =>
    intro i hupper hfuel
    by_cases hge : 0 ≤ i
    · by_cases hp : isPaneAt items i = true
      · exact ⟨i, prevPaneLoop_found items fr i hge hupper hp,
          Or.inl ⟨hp, le_refl i, fun j h1 h2 => by omega⟩⟩
      · have hp' : isPaneAt items i = false := by simpa using hp
        rw [prevPaneLoop_skip items fr i hge hupper hp']
        obtain ⟨r, hr, hchar⟩ := ihn (i - 1) (by omega) (by omega)
        refine ⟨r, hr, ?_⟩
        cases hchar with
        | inl hfound =>
          refine Or.inl ⟨hfound.1, by omega, fun j hj1 hj2 => ?_⟩
          by_cases hji : j = i
          · subst hji; exact hp'
          · exact hfound.2.2 j hj1 (by omega)
        | inr hnone =>
          refine Or.inr ⟨hnone.1, fun j hj => ?_⟩
          by_cases hji : j = i
          · subst hji; exact hp'
          · exact hnone.2 j (by omega)
    · refine ⟨fr, prevPaneLoop_exit items fr i hge, Or.inr ⟨rfl, ?_⟩⟩
      intro j hj
      exact isPaneAt_neg items j (by omega)

/-- NextPane succeeds on every start index `≥ -1` and meets its contract. -/
lemma NextPane_spec (items : List TreeItem) (fr : Int) (hfr : -1 ≤ fr) :
    ∃ r, NextPane items fr = some r ∧ nextPaneSpec items fr r := by
  obtain ⟨r, hr, hchar⟩ :=
    nextPaneLoop_spec items fr items.length (fr + 1) (by omega) (by omega)
  refine ⟨r, hr, ?_⟩
  cases hchar with
  | inl hfound =>
    exact Or.inl ⟨hfound.1, by omega,
      fun j h1 h2 => hfound.2.2 j (by omega) h2⟩
  | inr hnone =>
    exact Or.inr ⟨hnone.1, fun j hj => hnone.2 j (by omega)⟩

/-- PrevPane succeeds on every start index `≤ length` and meets its
contract. -/
lemma PrevPane_spec (items : List TreeItem) (fr : Int)
    (hfr : fr ≤ (items.length : Int)) :
    ∃ r, PrevPane items fr = some r ∧ prevPaneSpec items fr r := by
  obtain ⟨r, hr, hchar⟩ :=
    prevPaneLoop_spec items fr (items.length + 1) (fr - 1) (by omega) (by omega)
  refine ⟨r, hr, ?_⟩
  cases hchar with
  | inl hfound =>
    exact Or.inl ⟨hfound.1, by omega,
      fun j h1 h2 => hfound.2.2 j h1 (by omega)⟩
  | inr hnone =>
    exact Or.inr ⟨hnone.1, fun j hj => hnone.2 j (by omega)⟩

/-- NextPane panics (Go index out of range) for start indices below -1. -/
lemma NextPane_panic (items : List TreeItem) (fr : Int) (hfr : fr < -1) :
    NextPane items fr = none := by
  unfold NextPane
  exact nextPaneLoop_panic items fr (fr + 1) (by omega) (by omega)

/-- PrevPane panics (Go index out of range) for start indices above the
length. -/
lemma PrevPane_panic (items : List TreeItem) (fr : Int)
    (hfr : (items.length : Int) < fr) : PrevPane items fr = none := by
  unfold PrevPane
  exact prevPaneLoop_panic items fr (fr - 1) (by omega) (by omega)

/-- Claim C7, corrected: on start indices where the Go loops do not panic
(`-1 ≤ from` for NextPane, `from ≤ len(items)` for PrevPane — outside these
the Go code indexes out of range), NextPane returns the smallest pane index
greater than the argument, or the argument unchanged when none exists, and
PrevPane symmetrically; boundary idempotence is the no-such-row case. -/
theorem c7_next_prev_contract (items : List TreeItem) (fr : Int) :
    (-1 ≤ fr → ∃ r, NextPane items fr = some r ∧ nextPaneSpec items fr r) ∧
    (fr ≤ (items.length : Int) →
      ∃ r, PrevPane items fr = some r ∧ prevPaneSpec items fr r) :=
  ⟨NextPane_spec items fr, PrevPane_spec items fr⟩

/-- Witness for C7: on a concrete list, NextPane applied at the last pane
row and PrevPane applied at the first pane row meet the contract (both
return the argument unchanged there). -/
theorem c7_witness :
    (∃ r, NextPane [⟨ItemKind.workspace, 0, 0⟩, ⟨ItemKind.pane, 0, 0⟩] 1 = some r ∧
      nextPaneSpec [⟨ItemKind.workspace, 0, 0⟩, ⟨ItemKind.pane, 0, 0⟩] 1 r) ∧
    (∃ r, PrevPane [⟨ItemKind.workspace, 0, 0⟩, ⟨ItemKind.pane, 0, 0⟩] 1 = some r ∧
      prevPaneSpec [⟨ItemKind.workspace, 0, 0⟩, ⟨ItemKind.pane, 0, 0⟩] 1 r) :=
  ⟨(c7_next_prev_contract [⟨ItemKind.workspace, 0, 0⟩, ⟨ItemKind.pane, 0, 0⟩] 1).1
      (by decide),
   (c7_next_prev_contract [⟨ItemKind.workspace, 0, 0⟩, ⟨ItemKind.pane, 0, 0⟩] 1).2
      (by decide)⟩

/-- Counterexample to C7 as stated: at index -2 on a one-pane list the claim
demands the smallest greater pane index, namely 0, but the Go loop first
evaluates `items[-1]` and panics (modelled as `none`). -/
theorem c7_counterexample :
    NextPane [⟨ItemKind.pane, 0, 0⟩] (-2) = none ∧
    isPaneAt [⟨ItemKind.pane, 0, 0⟩] 0 = true := by
  refine ⟨?_, by decide⟩
  unfold NextPane nextPaneLoop
  norm_num

/-- The first pane index before a position is unique. -/
lemma firstPaneBefore_unique (items : List TreeItem) (c p q : Int)
    (hp : firstPaneBefore items c p) (hq : firstPaneBefore items c q) :
    p = q := by
  rcases lt_trichotomy p q with h | h | h
  · have := hp.2.2 q h hq.2.1
    rw [hq.1] at this
    cases this
  · exact h
  · have := hq.2.2 p h hp.2.1
    rw [hp.1] at this
    cases this

/-- The first pane index after a position is unique. -/
lemma firstPaneAfter_unique (items : List TreeItem) (c p q : Int)
    (hp : firstPaneAfter items c p) (hq : firstPaneAfter items c q) :
    p = q := by
  rcases lt_trichotomy p q with h | h | h
  · have := hq.2.2 p hp.2.1 h
    rw [hp.1] at this
    cases this
  · exact h
  · have := hp.2.2 q hq.2.1 h
    rw [hq.1] at this
    cases this

/-- The clamped index of a non-empty list is in bounds. -/
lemma clampIndex_bounds (items : List TreeItem) (fr : Int)
    (hlen : items.length ≠ 0) :
    0 ≤ clampIndex items fr ∧ clampIndex items fr < (items.length : Int) := by
  unfold clampIndex
  dsimp only
  split_ifs <;> omega

/-- In-bounds indices are left unchanged by the clamp. -/
lemma clampIndex_of_inbounds (items : List TreeItem) (fr : Int)
    (h0 : 0 ≤ fr) (h1 : fr < (items.length : Int)) :
    clampIndex items fr = fr := by
  unfold clampIndex
  dsimp only
  split_ifs <;> omega

/-- NearestPane keeps a clamped position that already addresses a pane. -/
lemma nearestPane_at_pane (items : List TreeItem) (fr : Int)
    (hc : isPaneAt items (clampIndex items fr) = true) :
    NearestPane items fr = clampIndex items fr := by
  have hb := isPaneAt_bounds items (clampIndex items fr) hc
  have hlen : items.length ≠ 0 := by omega
  unfold NearestPane
  rw [if_neg hlen]
  dsimp only
  rw [if_pos hc]

/-- Case analysis of NearestPane when the clamped position is not a pane:
the result is the nearest preceding pane, else the nearest following pane,
else 0 with no pane anywhere in the list. -/
lemma nearestPane_char (items : List TreeItem) (fr : Int)
    (hlen : items.length ≠ 0)
    (hc : isPaneAt items (clampIndex items fr) = false) :
    firstPaneBefore items (clampIndex items fr) (NearestPane items fr) ∨
    ((∀ j, j < clampIndex items fr → isPaneAt items j = false) ∧
      firstPaneAfter items (clampIndex items fr) (NearestPane items fr)) ∨
    ((∀ j, isPaneAt items j = false) ∧ NearestPane items fr = 0) := by
  have hcb := clampIndex_bounds items fr hlen
  obtain ⟨r, hr, hspec⟩ := PrevPane_spec items (clampIndex items fr) (by omega)
  have hbody : NearestPane items fr =
      (if r ≠ clampIndex items fr then r
       else
         match NextPane items (clampIndex items fr) with
         | some next => if next ≠ clampIndex items fr then next else 0
         | none => 0) := by
    unfold NearestPane
    rw [if_neg hlen]
    dsimp only
    rw [if_neg (by simp [hc]), hr]
  cases hspec with
  | inl hb =>
    rw [hbody, if_pos (show r ≠ clampIndex items fr by have := hb.2.1; omega)]
    exact Or.inl hb
  | inr hnone =>
    obtain ⟨hrc, hnoprev⟩ := hnone
    subst hrc
    obtain ⟨r2, hr2, hspec2⟩ := NextPane_spec items (clampIndex items fr) (by omega)
    rw [hbody, if_neg (by omega), hr2]
    dsimp only
    cases hspec2 with
    | inl ha =>
      rw [if_pos (show r2 ≠ clampIndex items fr by have := ha.2.1; omega)]
      exact Or.inr (Or.inl ⟨hnoprev, ha⟩)
    | inr hnone2 =>
      obtain ⟨hr2c, hnonext⟩ := hnone2
      rw [if_neg (by omega)]
      refine Or.inr (Or.inr ⟨fun j => ?_, rfl⟩)
      rcases lt_trichotomy j (clampIndex items fr) with h | h | h
      · exact hnoprev j h
      · subst h; exact hc
      · exact hnonext j h

/-- Claim C6: NearestPane returns 0 on the empty list, keeps a clamped index
already addressing a pane (in particular it is the identity on in-bounds
pane-addressing indices), and otherwise returns the nearest preceding pane
row, falling back to the nearest following pane row. -/
theorem c6_nearest_pane (items : List TreeItem) (fr : Int) :
    (items.length = 0 → NearestPane items fr = 0) ∧
    (isPaneAt items (clampIndex items fr) = true →
      NearestPane items fr = clampIndex items fr) ∧
    (isPaneAt items fr = true → NearestPane items fr = fr) ∧
    (∀ p, isPaneAt items (clampIndex items fr) = false →
      firstPaneBefore items (clampIndex items fr) p →
      NearestPane items fr = p) ∧
    (∀ p, isPaneAt items (clampIndex items fr) = false →
      (∀ j, j < clampIndex items fr → isPaneAt items j = false) →
      firstPaneAfter items (clampIndex items fr) p →
      NearestPane items fr = p) := by
  refine ⟨fun h => by unfold NearestPane; rw [if_pos h],
    nearestPane_at_pane items fr, fun h => ?_, fun p hc hp => ?_, fun p hc hno hp => ?_⟩
  · have hb := isPaneAt_bounds items fr h
    have hcl : clampIndex items fr = fr := clampIndex_of_inbounds items fr hb.1 hb.2
    rw [nearestPane_at_pane items fr (by rw [hcl]; exact h), hcl]
  · have hlen : items.length ≠ 0 := by
      have := isPaneAt_bounds items p hp.1
      omega
    rcases nearestPane_char items fr hlen hc with h | h | h
    · exact firstPaneBefore_unique items (clampIndex items fr)
        (NearestPane items fr) p h hp
    · have := h.1 p hp.2.1
      rw [hp.1] at this
      cases this
    · have := h.1 p
      rw [hp.1] at this
      cases this
  · have hlen : items.length ≠ 0 := by
      have := isPaneAt_bounds items p hp.1
      omega
    rcases nearestPane_char items fr hlen hc with h | h | h
    · have := hno (NearestPane items fr) h.2.1
      rw [h.1] at this
      cases this
    · exact firstPaneAfter_unique items (clampIndex items fr) (NearestPane items fr) p h.2 hp
    · have := h.1 p
      rw [hp.1] at this
      cases this

/-- Witness for C6: on [header, pane, pane], NearestPane 1 keeps the pane
index 1, and NearestPane from the header index 0 falls forward to pane 1. -/
theorem c6_witness :
    NearestPane [⟨ItemKind.workspace, 0, 0⟩, ⟨ItemKind.pane, 0, 0⟩,
      ⟨ItemKind.pane, 0, 1⟩] 1 = 1 ∧
    NearestPane [⟨ItemKind.workspace, 0, 0⟩, ⟨ItemKind.pane, 0, 0⟩,
      ⟨ItemKind.pane, 0, 1⟩] 0 = 1 := by
  constructor
  · exact (c6_nearest_pane [⟨ItemKind.workspace, 0, 0⟩, ⟨ItemKind.pane, 0, 0⟩,
      ⟨ItemKind.pane, 0, 1⟩] 1).2.2.1 (by decide)
  · exact (c6_nearest_pane [⟨ItemKind.workspace, 0, 0⟩, ⟨ItemKind.pane, 0, 0⟩,
      ⟨ItemKind.pane, 0, 1⟩] 0).2.2.2.2 1 (by decide)
      (by
        intro j hj
        have hcl : clampIndex [⟨ItemKind.workspace, 0, 0⟩, ⟨ItemKind.pane, 0, 0⟩,
            ⟨ItemKind.pane, 0, 1⟩] 0 = 0 := by decide
        rw [hcl] at hj
        exact isPaneAt_neg _ j hj)
      ⟨by decide, by decide, fun j h1 h2 => by
        have hcl : clampIndex [⟨ItemKind.workspace, 0, 0⟩, ⟨ItemKind.pane, 0, 0⟩,
            ⟨ItemKind.pane, 0, 1⟩] 0 = 0 := by decide
        rw [hcl] at h1
        omega⟩

/-- isPaneAt at a natural index reads the list entry. -/
lemma isPaneAt_natCast (items : List TreeItem) (n : Nat) (hn : n < items.length) :
    isPaneAt items (n : Int) = (items[n].kind == ItemKind.pane) := by
  unfold isPaneAt itemAt
  rw [if_neg (by omega), show ((n : Int)).toNat = n from by omega,
    List.getElem?_eq_getElem hn]

/-- A pane member of the list yields a pane-holding index. -/
lemma exists_pane_index (items : List TreeItem)
    (h : ∃ it ∈ items, it.kind = ItemKind.pane) :
    ∃ j : Int, isPaneAt items j = true := by
  obtain ⟨it, hmem, hk⟩ := h
  obtain ⟨⟨n, hn⟩, hget⟩ := List.mem_iff_get.mp hmem
  refine ⟨(n : Int), ?_⟩
  rw [isPaneAt_natCast items n hn]
  have hgn : items[n] = it := by
    rw [← hget]
    simp [List.get_eq_getElem]
  simp [hgn, hk]

/-- The search loop finds something as soon as a satisfying item exists. -/
lemma firstIdxFrom_isSome (p : TreeItem → Bool) :
    ∀ (items : List TreeItem) (base : Nat), (∃ it ∈ items, p it = true) →
      (firstIdxFrom p base items).isSome = true := by
  intro items
  induction items with
  | nil =>
    intro base h
    obtain ⟨it, hmem, _⟩ := h
    simp at hmem
  | cons x rest ih =>
    intro base h
    by_cases hp : p x = true
    · simp [firstIdxFrom, hp]
    · obtain ⟨it, hmem, hit⟩ := h
      rcases List.mem_cons.mp hmem with rfl | hmem'
      · exact absurd hit hp
      · simpa [firstIdxFrom, hp] using ih (base + 1) ⟨it, hmem', hit⟩

/-- The search loop only returns an index whose item satisfies `p`. -/
lemma firstIdxFrom_mem (p : TreeItem → Bool) :
    ∀ (items : List TreeItem) (base j : Nat),
      firstIdxFrom p base items = some j →
      ∃ k, ∃ hk : k < items.length, j = base + k ∧ p items[k] = true := by
  intro items
  induction items with
  | nil => intro base j h; simp [firstIdxFrom] at h
  | cons x rest ih =>
    intro base j h
    by_cases hp : p x = true
    · unfold firstIdxFrom at h
      rw [if_pos hp] at h
      injection h with h
      exact ⟨0, by simp, by omega, by simpa using hp⟩
    · unfold firstIdxFrom at h
      rw [if_neg hp] at h
      obtain ⟨k, hk1, hk2, hk3⟩ := ih (base + 1) j h
      exact ⟨k + 1, by simpa using Nat.succ_lt_succ hk1, by omega, by simpa using hk3⟩

/-- FirstPane lands on a pane row whenever one exists. -/
lemma firstPane_isPane (items : List TreeItem)
    (hex : ∃ it ∈ items, it.kind = ItemKind.pane) :
    isPaneAt items (FirstPane items : Int) = true := by
  obtain ⟨it, hmem, hk⟩ := hex
  have hsome := firstIdxFrom_isSome (fun it => it.kind == ItemKind.pane) items 0
    ⟨it, hmem, by simp [hk]⟩
  obtain ⟨j, hj⟩ := Option.isSome_iff_exists.mp hsome
  obtain ⟨k, hk1, hk2, hk3⟩ :=
    firstIdxFrom_mem (fun it => it.kind == ItemKind.pane) items 0 j hj
  unfold FirstPane
  rw [hj]
  have hjk : j = k := by omega
  subst hjk
  rw [isPaneAt_natCast items j hk1]
  exact hk3

/-- NearestPane lands on a pane row whenever one exists. -/
lemma nearestPane_pane (items : List TreeItem) (fr : Int)
    (h : ∃ j : Int, isPaneAt items j = true) :
    isPaneAt items (NearestPane items fr) = true := by
  obtain ⟨j0, hj0⟩ := h
  have hb := isPaneAt_bounds items j0 hj0
  have hlen : items.length ≠ 0 := by omega
  by_cases hc : isPaneAt items (clampIndex items fr) = true
  · rw [nearestPane_at_pane items fr hc]
    exact hc
  · have hc' : isPaneAt items (clampIndex items fr) = false := by simpa using hc
    rcases nearestPane_char items fr hlen hc' with h | h | h
    · exact h.1
    · exact h.2.1
    · have := h.1 j0
      rw [hj0] at this
      cases this

/-- Claim C8, corrected: NextPane and PrevPane never move the cursor onto a
header (any returned index other than the argument holds a pane), and
NearestPane, FirstPane and FirstAttentionPane return pane-holding indices
whenever the list contains at least one pane row; on a list without pane
rows the First/Nearest lookups fall back to index 0, which may be a header. -/
theorem c8_headers_not_addressable (items : List TreeItem) (ws : List Workspace)
    (fr : Int) :
    (∀ r, NextPane items fr = some r → r ≠ fr → isPaneAt items r = true) ∧
    (∀ r, PrevPane items fr = some r → r ≠ fr → isPaneAt items r = true) ∧
    ((∃ it ∈ items, it.kind = ItemKind.pane) →
      isPaneAt items (NearestPane items fr) = true) ∧
    ((∃ it ∈ items, it.kind = ItemKind.pane) →
      isPaneAt items (FirstPane items : Int) = true) ∧
    ((∃ it ∈ items, it.kind = ItemKind.pane) →
      isPaneAt items (FirstAttentionPane items ws : Int) = true) := by
  refine ⟨fun r hr hne => ?_, fun r hr hne => ?_,
    fun hex => nearestPane_pane items fr (exists_pane_index items hex),
    fun hex => firstPane_isPane items hex, fun hex => ?_⟩
  · by_cases hfr : -1 ≤ fr
    · obtain ⟨r0, hr0, hspec⟩ := NextPane_spec items fr hfr
      rw [hr0] at hr
      injection hr with hr
      subst hr
      cases hspec with
      | inl ha => exact ha.1
      | inr hb => exact absurd hb.1 hne
    · rw [NextPane_panic items fr (by omega)] at hr
      cases hr
  · by_cases hfr : fr ≤ (items.length : Int)
    · obtain ⟨r0, hr0, hspec⟩ := PrevPane_spec items fr hfr
      rw [hr0] at hr
      injection hr with hr
      subst hr
      cases hspec with
      | inl ha => exact ha.1
      | inr hb => exact absurd hb.1 hne
    · rw [PrevPane_panic items fr (by omega)] at hr
      cases hr
  · unfold FirstAttentionPane
    cases hq : firstIdxFrom (fun it =>
        it.kind == ItemKind.pane &&
          statusAt ws it == some PaneStatus.needsAttention) 0 items with
    | some j =>
      obtain ⟨k, hk1, hk2, hk3⟩ := firstIdxFrom_mem _ items 0 j hq
      have hjk : j = k := by omega
      subst hjk
      rw [isPaneAt_natCast items j hk1]
      rw [Bool.and_eq_true] at hk3
      exact hk3.1
    | none => exact firstPane_isPane items hex

/-- Witness for C8: on [header, pane], NearestPane 0 and FirstPane both land
on the pane row at index 1, never the header. -/
theorem c8_witness :
    isPaneAt [⟨ItemKind.workspace, 0, 0⟩, ⟨ItemKind.pane, 0, 0⟩]
      (NearestPane [⟨ItemKind.workspace, 0, 0⟩, ⟨ItemKind.pane, 0, 0⟩] 0) = true ∧
    isPaneAt [⟨ItemKind.workspace, 0, 0⟩, ⟨ItemKind.pane, 0, 0⟩]
      (FirstPane [⟨ItemKind.workspace, 0, 0⟩, ⟨ItemKind.pane, 0, 0⟩] : Int) = true :=
  ⟨(c8_headers_not_addressable [⟨ItemKind.workspace, 0, 0⟩, ⟨ItemKind.pane, 0, 0⟩]
      [] 0).2.2.1 (by decide),
   (c8_headers_not_addressable [⟨ItemKind.workspace, 0, 0⟩, ⟨ItemKind.pane, 0, 0⟩]
      [] 0).2.2.2.1 (by decide)⟩

/-- Counterexample to C8 as stated: on a list holding a single workspace
header, FirstPane returns index 0, which addresses the header row. -/
theorem c8_counterexample :
    FirstPane [⟨ItemKind.workspace, 3, 7⟩] = 0 ∧
    itemAt [⟨ItemKind.workspace, 3, 7⟩] 0 = some ⟨ItemKind.workspace, 3, 7⟩ := by
  refine ⟨by decide, by decide⟩

/-- Raising the running workspace index by one shifts every emitted
back-reference by one. -/
lemma flattenFrom_succ (ws : List Workspace) :
    ∀ wi : Nat, flattenFrom (wi + 1) ws =
      (flattenFrom wi ws).map fun it =>
        { it with workspaceIndex := it.workspaceIndex + 1 } := by
  induction ws with
  | nil => intro wi; simp [flattenFrom]
  | cons w rest ih =>
    intro wi
    simp only [flattenFrom, List.map_cons, List.map_append, List.map_map,
      ih (wi + 1)]
    rfl

/-- Every item emitted by the flatten loop back-references a workspace at or
after the running index, within range, and pane items stay within their
workspace's pane count. -/
lemma flattenFrom_bounds (ws : List Workspace) :
    ∀ (wi : Nat) (it : TreeItem), it ∈ flattenFrom wi ws →
      ∃ k, ∃ hk : k < ws.length, it.workspaceIndex = wi + k ∧
        (it.kind = ItemKind.pane → it.paneIndex < ws[k].panes.length) := by
  induction ws with
  | nil => intro wi it h; simp [flattenFrom] at h
  | cons w rest ih =>
    intro wi it h
    rw [flattenFrom, List.mem_cons] at h
    rcases h with rfl | h
    · exact ⟨0, by simp, by simp, fun h => by cases h⟩
    · rw [List.mem_append] at h
      rcases h with h | h
      · rw [List.mem_map] at h
        obtain ⟨pi, hpi, rfl⟩ := h
        rw [List.mem_range] at hpi
        exact ⟨0, by simp, by simp, fun _ => by simpa using hpi⟩
      · obtain ⟨k, hk, hidx, hpane⟩ := ih (wi + 1) it h
        exact ⟨k + 1, by simpa using Nat.succ_lt_succ hk, by omega,
          fun hkind => by simpa using hpane hkind⟩

/-- Claim C10: FlattenTree emits one header per workspace immediately
followed by its pane items in order (the recursive shape equation), every
item's workspace back-reference is in range, every pane item's pane
back-reference is in range, and the status read the UI performs on
selection therefore always succeeds. -/
theorem c10_flatten_tree (ws : List Workspace) (w : Workspace) :
    (FlattenTree (w :: ws) =
      ⟨ItemKind.workspace, 0, 0⟩ ::
        (((List.range w.panes.length).map fun pi => ⟨ItemKind.pane, 0, pi⟩) ++
          (FlattenTree ws).map fun it =>
            { it with workspaceIndex := it.workspaceIndex + 1 })) ∧
    (∀ it ∈ FlattenTree ws, it.workspaceIndex < ws.length) ∧
    (∀ it ∈ FlattenTree ws, it.kind = ItemKind.pane →
      ∃ w', ws[it.workspaceIndex]? = some w' ∧ it.paneIndex < w'.panes.length) ∧
    (∀ it ∈ FlattenTree ws, it.kind = ItemKind.pane →
      (statusAt ws it).isSome = true) := by
  have hbounds := flattenFrom_bounds ws 0
  refine ⟨?_, fun it hit => ?_, fun it hit hkind => ?_, fun it hit hkind => ?_⟩
  · unfold FlattenTree
    rw [flattenFrom]
    rw [flattenFrom_succ ws 0]
  · obtain ⟨k, hk, hidx, _⟩ := hbounds it hit
    omega
  · obtain ⟨k, hk, hidx, hpane⟩ := hbounds it hit
    have hik : it.workspaceIndex = k := by omega
    refine ⟨ws[k], ?_, hpane hkind⟩
    rw [hik, List.getElem?_eq_getElem hk]
  · obtain ⟨k, hk, hidx, hpane⟩ := hbounds it hit
    have hik : it.workspaceIndex = k := by omega
    unfold statusAt
    rw [hik, List.getElem?_eq_getElem hk]
    dsimp only
    rw [List.getElem?_eq_getElem (hpane hkind)]
    rfl

/-- Witness for C10: the pane item emitted for wsDemo has in-range
back-references and its status read succeeds. -/
theorem c10_witness :
    (⟨ItemKind.pane, 0, 0⟩ : TreeItem).workspaceIndex < wsDemo.length ∧
    (statusAt wsDemo ⟨ItemKind.pane, 0, 0⟩).isSome = true :=
  ⟨(c10_flatten_tree wsDemo ⟨"/x", "x", []⟩).2.1 ⟨ItemKind.pane, 0, 0⟩ (by decide),
   (c10_flatten_tree wsDemo ⟨"/x", "x", []⟩).2.2.2 ⟨ItemKind.pane, 0, 0⟩
     (by decide) (by decide)⟩

/-- The success path computes the rebuilt model and a command list headed by
the panes tick. -/
lemma updatePanesLoaded_ok (home : String) (m : TuiModel) (panes : List Pane) :
    updatePanesLoaded home m ⟨panes, none⟩ =
      (rebuiltModel home { m with loaded := true } panes,
       match previewCmd (rebuiltModel home { m with loaded := true } panes) with
       | some c => [Cmd.panesTick, c]
       | none => [Cmd.panesTick]) := by
  unfold updatePanesLoaded
  dsimp only
  cases previewCmd (rebuiltModel home { m with loaded := true } panes) <;> rfl

/-- Claim C9: handling a panes-loaded message always schedules the next
panes tick; a collection error is stored for display (leaving the cursor
alone); a success on the first load after startup puts the cursor on the
first attention pane of the freshly rebuilt items, and on every later load
re-anchors it via NearestPane from the previous cursor. -/
theorem c9_panes_loaded_always_ticks (home : String) (m : TuiModel)
    (msg : PanesLoadedMsg) :
    (Cmd.panesTick ∈ (updatePanesLoaded home m msg).2) ∧
    (∀ e, msg.err = some e →
      (updatePanesLoaded home m msg).1.err = some e ∧
      (updatePanesLoaded home m msg).1.cursor = m.cursor ∧
      (updatePanesLoaded home m msg).2 = [Cmd.panesTick]) ∧
    (msg.err = none → m.statusLoaded = false →
      (updatePanesLoaded home m msg).1.cursor =
        ((FirstAttentionPane (FlattenTree (GroupByWorkspace home msg.panes))
          (GroupByWorkspace home msg.panes) : Nat) : Int)) ∧
    (msg.err = none → m.statusLoaded = true →
      (updatePanesLoaded home m msg).1.cursor =
        NearestPane (FlattenTree (GroupByWorkspace home msg.panes)) m.cursor) ∧
    (msg.err = none →
      (updatePanesLoaded home m msg).1.items =
        FlattenTree (GroupByWorkspace home msg.panes) ∧
      (updatePanesLoaded home m msg).1.statusLoaded = true) := by
  obtain ⟨panes, merr⟩ := msg
  cases merr with
  | some e => simp [updatePanesLoaded]
  | none =>
    rw [updatePanesLoaded_ok home m panes]
    refine ⟨?_, by simp, fun _ hsl => ?_, fun _ hsl => ?_,
      fun _ => ⟨by simp [rebuiltModel], by simp [rebuiltModel]⟩⟩
    · cases previewCmd (rebuiltModel home { m with loaded := true } panes) with
      | some c => simp
      | none => simp
    · simp [rebuiltModel, hsl]
    · simp [rebuiltModel, hsl]

/-- Witness for C9: a first successful load schedules the panes tick and
jumps the cursor to the first attention pane of the rebuilt list. -/
theorem c9_witness :
    Cmd.panesTick ∈ (updatePanesLoaded "/h" mDemo msgDemo).2 ∧
    (updatePanesLoaded "/h" mDemo msgDemo).1.cursor =
      ((FirstAttentionPane (FlattenTree (GroupByWorkspace "/h" [demoPane]))
        (GroupByWorkspace "/h" [demoPane]) : Nat) : Int) :=
  ⟨(c9_panes_loaded_always_ticks "/h" mDemo msgDemo).1,
   (c9_panes_loaded_always_ticks "/h" mDemo msgDemo).2.2.1 rfl rfl⟩

end ClaudeMux
